import Mathlib

/-!
Verification development for the fungal-network game core of the `mycelia`
repository.

The Rust source is shallowly embedded as follows.

* Bevy `Entity` handles are modelled as natural numbers.
* A `Query<&NetworkParent>` is modelled as a partial map
  `parents : Entity → Option Entity`; `parents e = none` models a failed
  `parents.get(e)` (the entity has no `NetworkParent` component or was
  despawned), `parents e = some p` models `Ok(NetworkParent(p))`.
* A `Query<&NetworkChildren>` is modelled as `children : Entity → List Entity`
  where a missing component is the empty list (the source skips the entity
  via `if let Ok(kids) = ...`, which is observationally the same as an empty
  child list).
* The unbounded `loop`/`while` constructs of `graph.rs` are embedded with an
  explicit fuel argument; the outer `Option` of each result is `none` exactly
  when the loop has not finished within `fuel` iterations, and `some r` when
  the Rust function returns `r`.
* `f32` quantities that only ever flow through `+`, `-`, `*`, `/`, `min`,
  `max`, `clamp` and comparisons (nutrients, colors, squared distances) are
  modelled as exact rationals `ℚ`.  Facing directions are produced by
  `Vec2::normalize_or_zero`, which takes a square root, so they are modelled
  as pairs of reals `ℝ × ℝ`; this is the one place the embedding is not
  executable, because square roots of rationals are irrational in general.
* Bevy systems become pure functions from the resources and query rows they
  read to the resources and query rows they write; event writers become the
  list of events sent during the frame.
-/

namespace Mycelia

/-- Entity handles are opaque identifiers; we model them as naturals. -/
abbrev Entity := Nat

/-! ## Graph traversal (src/game/network/graph.rs) -/

/-- Iterating the parent map `k` times from an entity: `some x` when every
lookup on the way succeeds and lands on `x`, `none` when some lookup fails
before `k` hops.  This is the reference notion of "following parent links". -/
def parentChain (parents : Entity → Option Entity) : Nat → Entity → Option Entity
  | 0, e => some e
  | k + 1, e =>
    match parents e with
    | some p => parentChain parents k p
    | none => none

/-- Embedding of `is_connected_to_core` (graph.rs lines 12-23): walk parent
links from `entity`; `true` upon reaching `core`, `false` as soon as a parent
lookup fails.  The outer `Option` is the fuel: `none` means the `loop` has not
returned within `fuel` iterations. -/
def is_connected_to_core (parents : Entity → Option Entity) (core : Entity) :
    Nat → Entity → Option Bool
  | 0, _ => none
  | fuel + 1, current =>
    if current = core then some true
    else
      match parents current with
      | some p => is_connected_to_core parents core fuel p
      | none => some false

/-- Embedding of `distance_from_core` (graph.rs lines 46-66).  Inner `Option`
is the Rust `Option<u32>`: `none` when not connected to the core. -/
def distance_from_core (parents : Entity → Option Entity) (core : Entity) :
    Nat → Entity → Option (Option Nat)
  | 0, _ => none
  | fuel + 1, current =>
    if current = core then some (some 0)
    else
      match parents current with
      | some p => (distance_from_core parents core fuel p).map (Option.map (· + 1))
      | none => some none

/-- Embedding of `path_to_core` (graph.rs lines 72-90).  The Rust loop pushes
`current` before testing it, so the returned list starts at `entity` and ends
at `core`, root-ward order. -/
def path_to_core (parents : Entity → Option Entity) (core : Entity) :
    Nat → Entity → Option (Option (List Entity))
  | 0, _ => none
  | fuel + 1, current =>
    if current = core then some (some [current])
    else
      match parents current with
      | some p => (path_to_core parents core fuel p).map (Option.map (current :: ·))
      | none => some none

/-- Loop body of `find_downstream_segments` (graph.rs lines 29-41).  The Rust
`Vec` stack pops from its end and `extend` pushes the children in order, so
the children come back off the stack in reverse order; with the stack head
modelling the `Vec`'s end, one iteration replaces the head `cur` by
`(children cur).reverse` and appends `cur` to `result`. -/
def findDownstreamAux (children : Entity → List Entity) :
    Nat → List Entity → List Entity → Option (List Entity)
  | _, [], result => some result
  | 0, _ :: _, _ => none
  | fuel + 1, cur :: rest, result =>
    findDownstreamAux children fuel ((children cur).reverse ++ rest) (result ++ [cur])

/-- Embedding of `find_downstream_segments`: start with the stack holding only
`entity` and an empty result. -/
def find_downstream_segments (children : Entity → List Entity) (fuel : Nat)
    (entity : Entity) : Option (List Entity) :=
  findDownstreamAux children fuel [entity] []

/-- Transitive reachability through `NetworkChildren` links: `Reaches c a b`
holds when `b` is `a` itself or a transitive child of `a`. -/
inductive Reaches (children : Entity → List Entity) : Entity → Entity → Prop
  | refl (a : Entity) : Reaches children a a
  | step {a b c : Entity} : b ∈ children a → Reaches children b c →
      Reaches children a c

/-- Child map with a shared child: entity 1 has children `[2, 3]` and entity 2
has children `[3]`, so entity 3 is a child of two parents. -/
def sharedChildMap : Entity → List Entity :=
  fun e => if e = 1 then [2, 3] else if e = 2 then [3] else []

/-- Child map forming the tree A→{B,C}, B→{D} of the spec's example, with
A = 1, B = 2, C = 3, D = 4. -/
def treeChildMap : Entity → List Entity :=
  fun e => if e = 1 then [2, 3] else if e = 2 then [4] else []

/-- Parent map used to instantiate the traversal theorems: entity 5 has the
core 0 as parent, nobody else has a parent. -/
def chainParentMap : Entity → Option Entity :=
  fun e => if e = 5 then some 0 else none

/-! ## Nutrient economy (src/game/progression/resources.rs, systems.rs) -/

/-- The `Nutrients` resource: a bounded pool of the game's currency. -/
structure Nutrients where
  current : ℚ
  max : ℚ
deriving DecidableEq, Repr

/-- Embedding of `Nutrients::add` (resources.rs lines 33-35): add, capped at
`max`. -/
def Nutrients.add (n : Nutrients) (amount : ℚ) : Nutrients :=
  { n with current := min (n.current + amount) n.max }

/-- Embedding of `Nutrients::spend` (resources.rs lines 39-46): deduct and
report `true` only when `current >= amount`, otherwise leave the pool
untouched and report `false`.  The returned pair is (Rust return value,
state of `self` after the call). -/
def Nutrients.spend (n : Nutrients) (amount : ℚ) : Bool × Nutrients :=
  if n.current ≥ amount then (true, { n with current := n.current - amount })
  else (false, n)

/-- Embedding of `Nutrients::can_afford` (resources.rs lines 50-52). -/
def Nutrients.can_afford (n : Nutrients) (amount : ℚ) : Bool :=
  decide (n.current ≥ amount)

/-- Embedding of `Nutrients::percentage` (resources.rs lines 56-62): the
division happens only behind the `max > 0` test, so a zero or negative `max`
yields `0` and the division-by-zero branch is never taken. -/
def Nutrients.percentage (n : Nutrients) : ℚ :=
  if n.max > 0 then n.current / n.max else 0

/-- Source tag carried by a `NutrientsGained` event (events.rs). -/
inductive NutrientSource
  | EnemyDrop
  | EnvironmentNode
  | PassiveAbsorption
  | Decomposition
  | Debug
deriving DecidableEq, Repr

/-- The `NutrientsGained` event (events.rs). -/
structure NutrientsGained where
  amount : ℚ
  source : NutrientSource
deriving DecidableEq, Repr

/-- The fields of the `NetworkStats` resource read by the passive-generation
system (src/game/network/resources.rs). -/
structure NetworkStats where
  total_mass : ℚ
  max_mass : ℚ
  segment_count : Nat
  tip_count : Nat
  territory_coverage : ℚ
  connected_segments : Nat
  severed_segments : Nat
deriving DecidableEq, Repr

/-- The `PassiveNutrientConfig` resource (resources.rs lines 103-109). -/
structure PassiveNutrientConfig where
  per_segment_rate : ℚ
  territory_bonus_rate : ℚ
deriving DecidableEq, Repr

/-- Embedding of `passive_nutrient_generation` (systems.rs lines 12-32).
`delta_secs` is `time.delta_secs()`.  Returns the nutrient pool after the
frame and the list of `NutrientsGained` events sent during the frame. -/
def passive_nutrient_generation (delta_secs : ℚ) (stats : NetworkStats)
    (config : PassiveNutrientConfig) (nutrients : Nutrients) :
    Nutrients × List NutrientsGained :=
  let segment_income := (stats.connected_segments : ℚ) * config.per_segment_rate
  let territory_income := stats.territory_coverage * config.territory_bonus_rate
  let total := (segment_income + territory_income) * delta_secs
  if total > 0 then
    (nutrients.add total, [⟨total, NutrientSource.PassiveAbsorption⟩])
  else
    (nutrients, [])

/-- Frame income of the passive-generation system, named for the statements
below: segment income plus territory income, scaled by the frame time. -/
def passiveIncome (delta_secs : ℚ) (stats : NetworkStats)
    (config : PassiveNutrientConfig) : ℚ :=
  ((stats.connected_segments : ℚ) * config.per_segment_rate +
    stats.territory_coverage * config.territory_bonus_rate) * delta_secs

/-! ## Growth-tip selection (src/game/network/growth.rs) -/

/-- Squared distance between two points, `Vec2::distance_squared`
(`dx * dx + dy * dy`). -/
def dist_squared (a b : ℚ × ℚ) : ℚ :=
  (a.1 - b.1) * (a.1 - b.1) + (a.2 - b.2) * (a.2 - b.2)

/-- The `TIP_SELECTION_RADIUS` constant (growth.rs line 13). -/
def TIP_SELECTION_RADIUS : ℚ := 12

/-- Embedding of `is_cursor_near_tip` (growth.rs lines 15-17):
`tip_pos.distance_squared(cursor_pos) <= radius * radius`. -/
def is_cursor_near_tip (cursor_pos tip_pos : ℚ × ℚ) (radius : ℚ) : Bool :=
  decide (dist_squared tip_pos cursor_pos ≤ radius * radius)

/-- One row of the selection system's query
`Query<(Entity, &TendrilPosition, &mut GrowthTip)>`: the entity id, the tip's
world position and its `selected` flag. -/
structure TipRow where
  id : Entity
  pos : ℚ × ℚ
  selected : Bool
deriving DecidableEq, Repr

/-- Embedding of the `.min_by(total_cmp of squared distances)` step: Rust's
`Iterator::min_by` keeps the first of equally-minimal elements, so the fold
replaces the running minimum only on a strictly smaller squared distance. -/
def min_by_dist (cursor : ℚ × ℚ) : List TipRow → Option TipRow
  | [] => none
  | t :: ts =>
    some (ts.foldl
      (fun best x =>
        if dist_squared cursor x.pos < dist_squared cursor best.pos then x else best)
      t)

/-- The deselect-first step of `select_growth_tip` (growth.rs lines 36-40):
if a previously active tip exists and still resolves, clear its `selected`
flag.  A stale handle simply matches no row. -/
def deselect_old (active : Option Entity) (tips : List TipRow) : List TipRow :=
  match active with
  | some old => tips.map fun t => if t.id = old then { t with selected := false } else t
  | none => tips

/-- Embedding of `select_growth_tip` (growth.rs lines 21-60).  Inputs are the
`InputActions.primary_just_pressed` flag, the `CursorWorldPosition.position`
option, the `ActiveGrowthTip` slot and the query rows; the result is the slot
and the rows after the system ran. -/
def select_growth_tip (primary_just_pressed : Bool) (cursor : Option (ℚ × ℚ))
    (active : Option Entity) (tips : List TipRow) : Option Entity × List TipRow :=
  if !primary_just_pressed then (active, tips)
  else
    match cursor with
    | none => (active, tips)
    | some c =>
      let tips1 := deselect_old active tips
      match min_by_dist c
          (tips1.filter fun t => is_cursor_near_tip c t.pos TIP_SELECTION_RADIUS) with
      | some w =>
        (some w.id, tips1.map fun t => if t.id = w.id then { t with selected := true } else t)
      | none => (none, tips1)

/-! ## Growth-tip aiming (src/game/network/growth.rs lines 62-78) -/

/-- One row of the aiming system's query: the entity id, the tip's position
and its facing direction.  The direction is real-valued because it is the
output of a normalization (square root). -/
structure AimRow where
  id : Entity
  pos : ℚ × ℚ
  dir : ℝ × ℝ

/-- Embedding of glam's `Vec2::normalize_or_zero` on the exact rationals the
system feeds it: the zero vector maps to the zero vector (no NaN), any other
vector is divided by its euclidean length. -/
noncomputable def normalize_or_zero (v : ℚ × ℚ) : ℝ × ℝ :=
  if v = (0, 0) then (0, 0)
  else ((v.1 : ℝ) / Real.sqrt ((v.1 : ℝ) ^ 2 + (v.2 : ℝ) ^ 2),
        (v.2 : ℝ) / Real.sqrt ((v.1 : ℝ) ^ 2 + (v.2 : ℝ) ^ 2))

/-- Embedding of `update_selected_tip_direction` (growth.rs lines 62-78).
The `ActiveGrowthTip` resource is read-only (`Res`, not `ResMut`) in the
source; it is returned unchanged so that statements about the slot can be
made.  Each `let ... else return` guard maps to a branch returning the state
unchanged. -/
noncomputable def update_selected_tip_direction (cursor : Option (ℚ × ℚ))
    (active : Option Entity) (tips : List AimRow) : Option Entity × List AimRow :=
  match cursor with
  | none => (active, tips)
  | some c =>
    match active with
    | none => (active, tips)
    | some t =>
      match tips.find? (fun tip => decide (tip.id = t)) with
      | none => (active, tips)
      | some _ =>
        (active,
          tips.map fun tip =>
            if tip.id = t then
              { tip with dir := normalize_or_zero (c.1 - tip.pos.1, c.2 - tip.pos.2) }
            else tip)

/-! ## Segment colors (src/game/network/rendering.rs) -/

/-- A color in the `Srgba` representation; `Color::srgb(a, b, c)` has alpha
one.  Channels are modelled as exact rationals. -/
@[ext]
structure Srgba where
  red : ℚ
  green : ℚ
  blue : ℚ
  alpha : ℚ
deriving DecidableEq, Repr

/-- `f32::clamp(self, lo, hi)` for `lo ≤ hi`. -/
def clampQ (x lo hi : ℚ) : ℚ := min (max x lo) hi

/-- The `CORRUPTION_COLOR` constant (rendering.rs line 92),
`Color::srgb(0.5, 0.1, 0.4)`. -/
def CORRUPTION_COLOR : Srgba := ⟨1 / 2, 1 / 10, 2 / 5, 1⟩

/-- Embedding of `lerp_color` (rendering.rs lines 99-110): channelwise linear
interpolation with the parameter clamped into `[0, 1]`. -/
def lerp_color (a b : Srgba) (t : ℚ) : Srgba :=
  let t := clampQ t 0 1
  ⟨a.red + (b.red - a.red) * t,
   a.green + (b.green - a.green) * t,
   a.blue + (b.blue - a.blue) * t,
   a.alpha + (b.alpha - a.alpha) * t⟩

/-- The four tendril variants (components.rs lines 90-97). -/
inductive TendrilType
  | Basic
  | Toxic
  | Sticky
  | Explosive
deriving DecidableEq, Repr

/-- The `TendrilSegment` component (components.rs lines 63-75). -/
structure TendrilSegment where
  tendril_type : TendrilType
  health : ℚ
  max_health : ℚ
  corrupted : Bool
  corruption_level : ℚ
deriving DecidableEq, Repr

/-- The `TendrilStyle` component (rendering.rs lines 16-24). -/
structure TendrilStyle where
  color : Srgba
  thickness : ℚ
  anim_offset : ℚ
deriving DecidableEq, Repr

/-- The health factor computed at the top of `segment_color` (rendering.rs
lines 116-120): `clamp(health / max_health, 0.3, 1.0)`, taken as `1.0` when
`max_health <= 0` so the division never runs on a zero denominator. -/
def health_factor (segment : TendrilSegment) : ℚ :=
  if segment.max_health > 0 then clampQ (segment.health / segment.max_health) (3 / 10) 1
  else 1

/-- Embedding of `segment_color` (rendering.rs lines 114-137): darken the
style's base color channelwise by the health factor (alpha untouched), then
blend toward `CORRUPTION_COLOR` by `corruption_level` if the segment is
corrupted. -/
def segment_color (segment : TendrilSegment) (style : TendrilStyle) : Srgba :=
  let hf := health_factor segment
  let damaged : Srgba :=
    ⟨style.color.red * hf, style.color.green * hf, style.color.blue * hf,
     style.color.alpha⟩
  if segment.corrupted then lerp_color damaged CORRUPTION_COLOR segment.corruption_level
  else damaged

/-! ## Core death check (src/game/network/core_node.rs) -/

/-- The `Health` component (components.rs lines 10-14). -/
structure Health where
  current : ℚ
  max : ℚ
deriving DecidableEq, Repr

/-- Embedding of `Health::is_dead` (components.rs lines 29-31). -/
def Health.is_dead (h : Health) : Bool :=
  decide (h.current ≤ 0)

/-- The game-state enumeration (src/lib.rs). -/
inductive GameState
  | Menu
  | Playing
  | Paused
  | Upgrading
  | GameOver
deriving DecidableEq, Repr

/-- Bevy's `Query::get_single`: `Ok` exactly when the query matches precisely
one entity. -/
def getSingle {α : Type} : List α → Option α
  | [a] => some a
  | _ => none

/-- Embedding of `check_core_death` (core_node.rs lines 48-59): the rows of
`Query<&Health, With<CoreNode>>` are the healths of all `CoreNode` entities;
`next_state` is the pending `NextState<GameState>` request, which `set`
overwrites.  The `let Ok(health) = get_single else return` guard makes the
system a no-op unless exactly one core exists. -/
def check_core_death (cores : List Health) (next_state : Option GameState) :
    Option GameState :=
  match getSingle cores with
  | none => next_state
  | some h => if h.is_dead then some GameState.GameOver else next_state

/-! ## Theorems -/

/-- C6: `Nutrients::spend(amount)` is atomic: it returns success and deducts
`amount` exactly when `current >= amount`; otherwise it returns failure and
leaves `current` unchanged.  Spending exactly `current` succeeds and leaves
`current == 0`. -/
theorem spend_atomic (n : Nutrients) (amount : ℚ) :
    (amount ≤ n.current → n.spend amount = (true, ⟨n.current - amount, n.max⟩)) ∧
    (n.current < amount → n.spend amount = (false, n)) ∧
    n.spend n.current = (true, ⟨0, n.max⟩) := by
  refine ⟨fun h => ?_, fun h => ?_, ?_⟩
  · simp [Nutrients.spend, h]
  · simp [Nutrients.spend, not_le.mpr h]
  · simp [Nutrients.spend]

/-- Witness for C6 at concrete pools: spending 30 out of 50 succeeds, spending
30 out of 20 fails without touching the pool, and spending 50 out of 50 zeroes
the pool. -/
theorem spend_atomic_witness :
    Nutrients.spend ⟨50, 100⟩ 30 = (true, ⟨50 - 30, 100⟩) ∧
    Nutrients.spend ⟨20, 100⟩ 30 = (false, ⟨20, 100⟩) ∧
    Nutrients.spend ⟨50, 100⟩ 50 = (true, ⟨0, 100⟩) :=
  ⟨(spend_atomic ⟨50, 100⟩ 30).1 (by norm_num),
   (spend_atomic ⟨20, 100⟩ 30).2.1 (by norm_num),
   (spend_atomic ⟨50, 100⟩ 50).2.2⟩

/-- C9: `Nutrients::percentage()` returns `current / max` when `max > 0` and
`0` whenever `max <= 0`, for every value of `current`; the division is guarded
by the `max > 0` test, so in this model (and in the `f32` original, whose
division by zero would be the only NaN source here) there is no
division-by-zero path. -/
theorem percentage_total (n : Nutrients) :
    (0 < n.max → n.percentage = n.current / n.max) ∧
    (n.max ≤ 0 → n.percentage = 0) := by
  refine ⟨fun h => ?_, fun h => ?_⟩
  · simp [Nutrients.percentage, h]
  · simp [Nutrients.percentage, not_lt.mpr h]

/-- Witness for C9: a healthy pool yields the ratio, a zero-capacity pool
yields zero. -/
theorem percentage_total_witness :
    Nutrients.percentage ⟨25, 100⟩ = 25 / 100 ∧
    Nutrients.percentage ⟨7, 0⟩ = 0 :=
  ⟨(percentage_total ⟨25, 100⟩).1 (by norm_num),
   (percentage_total ⟨7, 0⟩).2 le_rfl⟩

/-- C10: `check_core_death` requests `GameOver` exactly when the world
contains precisely one `CoreNode` entity whose `Health` satisfies
`current <= 0`; with zero cores, or with two or more, it makes no
state-transition request at all, even if every one of those cores is dead. -/
theorem check_core_death_spec (cores : List Health) (next : Option GameState) :
    (∀ h, cores = [h] → h.current ≤ 0 →
      check_core_death cores next = some GameState.GameOver) ∧
    (∀ h, cores = [h] → 0 < h.current → check_core_death cores next = next) ∧
    (cores = [] → check_core_death cores next = next) ∧
    (∀ h₁ h₂ rest, cores = h₁ :: h₂ :: rest → check_core_death cores next = next) := by
  refine ⟨fun h he hd => ?_, fun h he hl => ?_, fun he => ?_, fun h₁ h₂ rest he => ?_⟩
  · subst he; simp [check_core_death, getSingle, Health.is_dead, hd]
  · subst he; simp [check_core_death, getSingle, Health.is_dead, not_le.mpr hl]
  · subst he; simp [check_core_death, getSingle]
  · subst he; simp [check_core_death, getSingle]

/-- Witness for C10: one dead core triggers game over; two dead cores (and an
empty world) leave the pending state untouched. -/
theorem check_core_death_spec_witness :
    check_core_death [⟨0, 100⟩] none = some GameState.GameOver ∧
    check_core_death [⟨0, 100⟩, ⟨0, 50⟩] none = none ∧
    check_core_death [] none = none :=
  ⟨(check_core_death_spec [⟨0, 100⟩] none).1 ⟨0, 100⟩ rfl le_rfl,
   (check_core_death_spec [⟨0, 100⟩, ⟨0, 50⟩] none).2.2.2 ⟨0, 100⟩ ⟨0, 50⟩ [] rfl,
   (check_core_death_spec [] none).2.2.1 rfl⟩

/-- C8: `segment_color` computes a health factor clamped into `[0.3, 1]`
(taken as `1` when `max_health <= 0`), multiplies each RGB channel of the
style's base color by it leaving alpha untouched, and blends toward
`CORRUPTION_COLOR` only when corrupted; a full-health uncorrupted segment
yields exactly the base color, and a corrupted segment with
`corruption_level == 1` yields exactly `CORRUPTION_COLOR` regardless of
health. -/
theorem segment_color_spec (s : TendrilSegment) (st : TendrilStyle) :
    (3 / 10 ≤ health_factor s ∧ health_factor s ≤ 1) ∧
    (s.corrupted = false →
      segment_color s st =
        ⟨st.color.red * health_factor s, st.color.green * health_factor s,
         st.color.blue * health_factor s, st.color.alpha⟩) ∧
    (s.health = s.max_health → s.corrupted = false → segment_color s st = st.color) ∧
    (s.corrupted = true → s.corruption_level = 1 →
      segment_color s st = CORRUPTION_COLOR) := by
  have hf_bounds : 3 / 10 ≤ health_factor s ∧ health_factor s ≤ 1 := by
    unfold health_factor clampQ
    split
    · exact ⟨le_min (le_max_right _ _) (by norm_num), min_le_right _ _⟩
    · exact ⟨by norm_num, le_rfl⟩
  have hf_one : s.health = s.max_health → health_factor s = 1 := by
    intro hh
    unfold health_factor clampQ
    split
    · rename_i hpos
      rw [hh, div_self (ne_of_gt hpos)]
      norm_num
    · rfl
  refine ⟨hf_bounds, fun hc => ?_, fun hh hc => ?_, fun hc hl => ?_⟩
  · simp [segment_color, hc]
  · have h1 := hf_one hh
    simp [segment_color, hc, h1]
  · simp only [segment_color, hc, if_true, hl]
    unfold lerp_color clampQ
    have ht : min (max (1 : ℚ) 0) 1 = 1 := by norm_num
    simp only [ht]
    ext <;> ring

/-- Witness for C8: a full-health uncorrupted basic segment renders in the
basic style's base color, and a fully corrupted damaged segment renders as the
corruption color. -/
theorem segment_color_spec_witness :
    segment_color ⟨TendrilType.Basic, 100, 100, false, 0⟩
        ⟨⟨2 / 5, 7 / 10, 3 / 10, 1⟩, 3, 0⟩ = ⟨2 / 5, 7 / 10, 3 / 10, 1⟩ ∧
    segment_color ⟨TendrilType.Basic, 50, 100, true, 1⟩
        ⟨⟨2 / 5, 7 / 10, 3 / 10, 1⟩, 3, 0⟩ = CORRUPTION_COLOR :=
  ⟨(segment_color_spec ⟨TendrilType.Basic, 100, 100, false, 0⟩
      ⟨⟨2 / 5, 7 / 10, 3 / 10, 1⟩, 3, 0⟩).2.2.1 rfl rfl,
   (segment_color_spec ⟨TendrilType.Basic, 50, 100, true, 1⟩
      ⟨⟨2 / 5, 7 / 10, 3 / 10, 1⟩, 3, 0⟩).2.2.2 rfl rfl⟩

/-- Unfolding of the passive-generation system as a single conditional on the
frame income. -/
theorem passive_nutrient_generation_eq (dt : ℚ) (stats : NetworkStats)
    (config : PassiveNutrientConfig) (n : Nutrients) :
    passive_nutrient_generation dt stats config n =
      if passiveIncome dt stats config > 0 then
        (n.add (passiveIncome dt stats config),
         [⟨passiveIncome dt stats config, NutrientSource.PassiveAbsorption⟩])
      else (n, []) := rfl

/-- C7: each frame the passive generation system computes
`income = connected_segment_count * per_segment_rate +
territory_coverage * territory_bonus_rate`, scales it by the elapsed frame
time, and adds it to the nutrient pool (clamped at `max`); a nutrients-gained
notification carrying that amount and the `PassiveAbsorption` source is
emitted exactly when the computed income is strictly positive, and never on a
zero-income frame. -/
theorem passive_generation_spec (dt : ℚ) (stats : NetworkStats)
    (config : PassiveNutrientConfig) (n : Nutrients) :
    (0 < passiveIncome dt stats config →
      passive_nutrient_generation dt stats config n =
        (n.add (passiveIncome dt stats config),
         [⟨passiveIncome dt stats config, NutrientSource.PassiveAbsorption⟩])) ∧
    (passiveIncome dt stats config ≤ 0 →
      passive_nutrient_generation dt stats config n = (n, [])) ∧
    ((passive_nutrient_generation dt stats config n).2 ≠ [] ↔
      0 < passiveIncome dt stats config) ∧
    (n.add (passiveIncome dt stats config)).current =
      min (n.current + passiveIncome dt stats config) n.max := by
  rw [passive_nutrient_generation_eq]
  refine ⟨fun h => ?_, fun h => ?_, ?_, rfl⟩
  · rw [if_pos h]
  · rw [if_neg (not_lt.mpr h)]
  · split
    · rename_i h
      simpa using h
    · rename_i h
      simpa using h

/-- Witness for C7, the spec's end-to-end scenario: 10 connected segments at
rate 0.1 plus 10% territory at bonus rate 1 over one second yield income
1.1, added to the pool with exactly one `PassiveAbsorption` notification. -/
theorem passive_generation_spec_witness :
    passive_nutrient_generation 1 ⟨0, 0, 0, 0, 1 / 10, 10, 0⟩ ⟨1 / 10, 1⟩ ⟨50, 100⟩ =
      (Nutrients.add ⟨50, 100⟩ (passiveIncome 1 ⟨0, 0, 0, 0, 1 / 10, 10, 0⟩ ⟨1 / 10, 1⟩),
       [⟨passiveIncome 1 ⟨0, 0, 0, 0, 1 / 10, 10, 0⟩ ⟨1 / 10, 1⟩,
         NutrientSource.PassiveAbsorption⟩]) ∧
    passiveIncome 1 ⟨0, 0, 0, 0, 1 / 10, 10, 0⟩ ⟨1 / 10, 1⟩ = 11 / 10 :=
  ⟨(passive_generation_spec 1 ⟨0, 0, 0, 0, 1 / 10, 10, 0⟩ ⟨1 / 10, 1⟩ ⟨50, 100⟩).1
      (by norm_num [passiveIncome]),
   by norm_num [passiveIncome]⟩

/-- Unfolding principle for child-reachability: `x` is reachable from `a`
exactly when it is `a` itself or reachable from one of `a`'s children. -/
theorem reaches_iff (children : Entity → List Entity) (a x : Entity) :
    Reaches children a x ↔ x = a ∨ ∃ b ∈ children a, Reaches children b x := by
  constructor
  · intro h
    cases h with
    | refl => exact Or.inl rfl
    | step hb hr => exact Or.inr ⟨_, hb, hr⟩
  · rintro (rfl | ⟨b, hb, hr⟩)
    · exact Reaches.refl _
    · exact Reaches.step hb hr

/-- Invariant of the `find_downstream_segments` loop: when it terminates, the
final result holds exactly the entities already collected plus everything
reachable from some stack entry. -/
theorem findDownstreamAux_mem (children : Entity → List Entity) :
    ∀ (fuel : Nat) (stack res l : List Entity),
      findDownstreamAux children fuel stack res = some l →
      ∀ x, x ∈ l ↔ x ∈ res ∨ ∃ s ∈ stack, Reaches children s x := by
  intro fuel
  induction fuel with
  | zero =>
    intro stack res l h x
    cases stack with
    | nil =>
      simp only [findDownstreamAux, Option.some_inj] at h
      subst h
      simp
    | cons c cs => simp [findDownstreamAux] at h
  | succ f ih =>
    intro stack res l h x
    cases stack with
    | nil =>
      simp only [findDownstreamAux, Option.some_inj] at h
      subst h
      simp
    | cons cur rest =>
      rw [findDownstreamAux] at h
      rw [ih _ _ _ h x]
      simp only [List.mem_append, List.mem_cons, List.mem_reverse, List.not_mem_nil,
        or_false]
      constructor
      · rintro ((hres | hxc) | ⟨s, hs | hs, hr⟩)
        · exact Or.inl hres
        · exact Or.inr ⟨cur, Or.inl rfl, by rw [hxc]; exact Reaches.refl cur⟩
        · exact Or.inr ⟨cur, Or.inl rfl, Reaches.step hs hr⟩
        · exact Or.inr ⟨s, Or.inr hs, hr⟩
      · rintro (hres | ⟨s, rfl | hs, hr⟩)
        · exact Or.inl (Or.inl hres)
        · rcases (reaches_iff children s x).mp hr with rfl | ⟨b, hb, hbr⟩
          · exact Or.inl (Or.inr rfl)
          · exact Or.inr ⟨b, Or.inl hb, hbr⟩
        · exact Or.inr ⟨s, Or.inr hs, hr⟩

/-- Membership characterization of `find_downstream_segments`: when the
traversal terminates, the output holds exactly the entities reachable from
the start through `NetworkChildren` links. -/
theorem find_downstream_mem (children : Entity → List Entity) (fuel : Nat)
    (e : Entity) (l : List Entity)
    (h : find_downstream_segments children fuel e = some l) :
    ∀ x, x ∈ l ↔ Reaches children e x := by
  intro x
  rw [findDownstreamAux_mem children fuel [e] [] l h x]
  simp

/-- Counterexample to C2 as stated: with entity 1 having children `[2, 3]`
and entity 2 having children `[3]` (a shared child), the traversal from 1
returns `[1, 3, 2, 3]`, which lists entity 3 twice. -/
theorem find_downstream_shared_child_duplicate :
    sharedChildMap 1 = [2, 3] ∧ sharedChildMap 2 = [3] ∧
    find_downstream_segments sharedChildMap 10 1 = some [1, 3, 2, 3] ∧
    List.count 3 [1, 3, 2, 3] = 2 ∧ ¬ ([1, 3, 2, 3] : List Entity).Nodup := by
  refine ⟨rfl, rfl, by decide, by decide, by decide⟩

/-- C2 (amended): for every entity `e`, when the traversal of
`find_downstream_segments(e)` terminates, its output contains `e` and
contains exactly `e` plus every transitive child reachable through
`NetworkChildren` links; when the children lists (incorrectly) share a child
between two parents the output may list an entity more than once, but on the
tree A→{B,C}, B→{D} the output has length 4 with each of A, B, C, D exactly
once. -/
theorem find_downstream_spec (children : Entity → List Entity) (fuel : Nat)
    (e : Entity) (l : List Entity)
    (h : find_downstream_segments children fuel e = some l) :
    e ∈ l ∧ (∀ x, x ∈ l ↔ Reaches children e x) ∧
    (find_downstream_segments treeChildMap 5 1 = some [1, 3, 2, 4] ∧
      ([1, 3, 2, 4] : List Entity).Nodup ∧
      ([1, 3, 2, 4] : List Entity).length = 4) := by
  have hm := find_downstream_mem children fuel e l h
  exact ⟨(hm e).mpr (Reaches.refl e), hm, by decide, by decide, by decide⟩

/-- Witness for the amended C2 on the spec's own tree A→{B,C}, B→{D}
(A = 1, B = 2, C = 3, D = 4). -/
theorem find_downstream_spec_witness :
    (1 : Entity) ∈ ([1, 3, 2, 4] : List Entity) ∧
    (∀ x, x ∈ ([1, 3, 2, 4] : List Entity) ↔ Reaches treeChildMap 1 x) ∧
    (find_downstream_segments treeChildMap 5 1 = some [1, 3, 2, 4] ∧
      ([1, 3, 2, 4] : List Entity).Nodup ∧
      ([1, 3, 2, 4] : List Entity).length = 4) :=
  find_downstream_spec treeChildMap 5 1 [1, 3, 2, 4] (by decide)

/-- C1: for every segment `s` connected to the core via parent links (the
parent chain from `s` reaches `core` in `k` hops), `path_to_core` returns
`Some` of a list that ends in `core` and whose length equals
`distance_from_core(s, core) + 1`; in particular
`path_to_core(core, core) = Some([core])` and
`distance_from_core(core, core) = Some(0)`.  Fuel `k + 1` suffices because
both loops stop at the first hit of `core`. -/
theorem path_to_core_length_distance (parents : Entity → Option Entity)
    (core s : Entity) (k : Nat) (h : parentChain parents k s = some core) :
    ∃ l d, path_to_core parents core (k + 1) s = some (some l) ∧
      distance_from_core parents core (k + 1) s = some (some d) ∧
      l.length = d + 1 ∧ l.getLast? = some core ∧
      path_to_core parents core 1 core = some (some [core]) ∧
      distance_from_core parents core 1 core = some (some 0) := by
  induction k generalizing s with
  | zero =>
    rw [parentChain, Option.some_inj] at h
    subst h
    exact ⟨[s], 0, by simp [path_to_core], by simp [distance_from_core], rfl, rfl,
      by simp [path_to_core], by simp [distance_from_core]⟩
  | succ k ih =>
    by_cases hsc : s = core
    · subst hsc
      exact ⟨[s], 0, by simp [path_to_core], by simp [distance_from_core], rfl, rfl,
        by simp [path_to_core], by simp [distance_from_core]⟩
    · rw [parentChain] at h
      cases hp : parents s with
      | none => rw [hp] at h; exact absurd h (by simp)
      | some p =>
        rw [hp] at h
        obtain ⟨l, d, hpath, hdist, hlen, hlast, hpc, hdc⟩ := ih p h
        have hps : path_to_core parents core (k + 1 + 1) s =
            (path_to_core parents core (k + 1) p).map (Option.map fun x => s :: x) := by
          rw [path_to_core, if_neg hsc, hp]
        have hds : distance_from_core parents core (k + 1 + 1) s =
            (distance_from_core parents core (k + 1) p).map (Option.map fun x => x + 1) := by
          rw [distance_from_core, if_neg hsc, hp]
        refine ⟨s :: l, d + 1, ?_, ?_, ?_, ?_, hpc, hdc⟩
        · rw [hps, hpath]
          rfl
        · rw [hds, hdist]
          rfl
        · simp [hlen]
        · cases l with
          | nil => simp at hlen
          | cons a l' => rw [List.getLast?_cons_cons]; exact hlast

/-- Witness for C1 on the concrete parent map where entity 5's parent is the
core 0: the returned path and distance are produced and agree. -/
theorem path_to_core_length_distance_witness :
    ∃ l d, path_to_core chainParentMap 0 2 5 = some (some l) ∧
      distance_from_core chainParentMap 0 2 5 = some (some d) ∧
      l.length = d + 1 ∧ l.getLast? = some 0 ∧
      path_to_core chainParentMap 0 1 0 = some (some [0]) ∧
      distance_from_core chainParentMap 0 1 0 = some (some 0) :=
  path_to_core_length_distance chainParentMap 0 5 1 (by decide)

/-- A successful run of `is_connected_to_core` answers `true` exactly when
some number of parent hops lands on the core. -/
theorem is_connected_result_iff (parents : Entity → Option Entity) (core : Entity) :
    ∀ (fuel : Nat) (e : Entity) (b : Bool),
      is_connected_to_core parents core fuel e = some b →
      (b = true ↔ ∃ k, parentChain parents k e = some core) := by
  intro fuel
  induction fuel with
  | zero => intro e b h; simp [is_connected_to_core] at h
  | succ f ih =>
    intro e b h
    rw [is_connected_to_core] at h
    by_cases hec : e = core
    · rw [if_pos hec, Option.some_inj] at h
      subst h
      simp only [true_iff]
      exact ⟨0, by rw [parentChain, hec]⟩
    · rw [if_neg hec] at h
      cases hp : parents e with
      | some p =>
        rw [hp] at h
        rw [ih p b h]
        constructor
        · rintro ⟨k, hk⟩
          exact ⟨k + 1, by rw [parentChain, hp]; exact hk⟩
        · rintro ⟨k, hk⟩
          cases k with
          | zero =>
            rw [parentChain, Option.some_inj] at hk
            exact absurd hk hec
          | succ k =>
            rw [parentChain, hp] at hk
            exact ⟨k, hk⟩
      | none =>
        rw [hp, Option.some_inj] at h
        subst h
        simp only [Bool.false_eq_true, false_iff, not_exists]
        intro k hk
        cases k with
        | zero =>
          rw [parentChain, Option.some_inj] at hk
          exact hec hk
        | succ k =>
          rw [parentChain, hp] at hk
          exact Option.noConfusion hk
/-- A run of `is_connected_to_core` that answers `false` stopped at a chain
entry that is not the core and whose parent lookup fails. -/
theorem is_connected_false_reason (parents : Entity → Option Entity) (core : Entity) :
    ∀ (fuel : Nat) (e : Entity),
      is_connected_to_core parents core fuel e = some false →
      ∃ k x, parentChain parents k e = some x ∧ x ≠ core ∧ parents x = none := by
  intro fuel
  induction fuel with
  | zero => intro e h; simp [is_connected_to_core] at h
  | succ f ih =>
    intro e h
    rw [is_connected_to_core] at h
    by_cases hec : e = core
    · rw [if_pos hec] at h
      exact absurd h (by simp)
    · rw [if_neg hec] at h
      cases hp : parents e with
      | some p =>
        rw [hp] at h
        obtain ⟨k, x, hk, hxc, hxp⟩ := ih p h
        exact ⟨k + 1, x, by rw [parentChain, hp]; exact hk, hxc, hxp⟩
      | none =>
        exact ⟨0, e, rfl, hec, hp⟩
/-- Peeling one hop off the front of an iterated parent walk. -/
theorem parentChain_succ (parents : Entity → Option Entity) :
    ∀ (k : Nat) (e : Entity),
      parentChain parents (k + 1) e = (parentChain parents k e).bind parents := by
  intro k
  induction k with
  | zero =>
    intro e
    rw [parentChain, parentChain]
    cases hp : parents e <;> simp [parentChain, hp]
  | succ k ih =>
    intro e
    cases hp : parents e with
    | some p =>
      have hl : parentChain parents (k + 1 + 1) e = parentChain parents (k + 1) p := by
        rw [parentChain, hp]
      have hr : parentChain parents (k + 1) e = parentChain parents k p := by
        rw [parentChain, hp]
      rw [hl, hr]
      exact ih p
    | none =>
      have hl : parentChain parents (k + 1 + 1) e = none := by rw [parentChain, hp]
      have hr : parentChain parents (k + 1) e = none := by rw [parentChain, hp]
      rw [hl, hr]
      rfl
/-- Splitting an iterated parent walk into two legs. -/
theorem parentChain_add (parents : Entity → Option Entity) :
    ∀ (i j : Nat) (e : Entity),
      parentChain parents (i + j) e =
        (parentChain parents i e).bind (parentChain parents j) := by
  intro i
  induction i with
  | zero => intro j e; simp [parentChain]
  | succ i ih =>
    intro j e
    have harith : i + 1 + j = (i + j) + 1 := by omega
    rw [harith, parentChain, parentChain]
    cases hp : parents e with
    | some p => exact ih j p
    | none => rfl
/-- One failing step of the walk: a run that has produced no answer within
`n + 1` iterations is not at the core, has a live parent link, and the rest
of the run also produces no answer within `n` iterations. -/
theorem is_connected_none_step (parents : Entity → Option Entity) (core : Entity)
    (n : Nat) (x : Entity)
    (h : is_connected_to_core parents core (n + 1) x = none) :
    x ≠ core ∧ ∃ p, parents x = some p ∧ is_connected_to_core parents core n p = none := by
  rw [is_connected_to_core] at h
  by_cases hxc : x = core
  · rw [if_pos hxc] at h
    exact absurd h (by simp)
  · rw [if_neg hxc] at h
    cases hp : parents x with
    | some p =>
      rw [hp] at h
      exact ⟨hxc, p, rfl, h⟩
    | none =>
      rw [hp] at h
      exact absurd h (by simp)
/-- Termination of `is_connected_to_core`: when parent links live on a finite
set of entities and have no cycles, the walk runs out of new entities, so
some fuel suffices. -/
theorem is_connected_terminates (parents : Entity → Option Entity) (core : Entity)
    (S : Finset Entity) (hS : ∀ e, e ∉ S → parents e = none)
    (hacyc : ∀ e k, 0 < k → parentChain parents k e = some e → False) (e : Entity) :
    ∃ fuel b, is_connected_to_core parents core fuel e = some b := by
  by_contra hcon
  push_neg at hcon
  have hnone : ∀ fuel, is_connected_to_core parents core fuel e = none := by
    intro fuel
    cases hr : is_connected_to_core parents core fuel e with
    | none => rfl
    | some b => exact absurd hr (hcon fuel b)
  have total : ∀ k, ∃ x, parentChain parents k e = some x ∧
      ∀ fuel, is_connected_to_core parents core fuel x = none := by
    intro k
    induction k with
    | zero => exact ⟨e, rfl, hnone⟩
    | succ k ih =>
      obtain ⟨x, hx, hxnone⟩ := ih
      obtain ⟨-, p, hp, -⟩ := is_connected_none_step parents core 0 x (hxnone 1)
      refine ⟨p, ?_, ?_⟩
      · rw [parentChain_succ, hx]
        exact hp
      · intro fuel
        obtain ⟨-, p', hp', hrun⟩ := is_connected_none_step parents core fuel x (hxnone (fuel + 1))
        rw [hp, Option.some_inj] at hp'
        exact hp' ▸ hrun
  choose g hg1 hg2 using total
  have hmem : ∀ k, g k ∈ S := by
    intro k
    by_contra hk
    obtain ⟨-, p, hp, -⟩ := is_connected_none_step parents core 0 (g k) (hg2 k 1)
    rw [hS (g k) hk] at hp
    exact Option.noConfusion hp
  have hinj : Function.Injective g := by
    intro i j hij
    by_contra hne
    rcases Nat.lt_or_ge i j with hlt | hge
    · have hsplit := parentChain_add parents i (j - i) e
      rw [Nat.add_sub_cancel' (Nat.le_of_lt hlt), hg1 j, hg1 i] at hsplit
      have hcycle : parentChain parents (j - i) (g i) = some (g i) := by
        rw [← hij] at hsplit
        exact hsplit.symm
      exact hacyc (g i) (j - i) (by omega) hcycle
    · have hlt' : j < i := by omega
      have hsplit := parentChain_add parents j (i - j) e
      rw [Nat.add_sub_cancel' (Nat.le_of_lt hlt'), hg1 i, hg1 j] at hsplit
      have hcycle : parentChain parents (i - j) (g j) = some (g j) := by
        rw [hij] at hsplit
        exact hsplit.symm
      exact hacyc (g j) (i - j) (by omega) hcycle
  exact (Set.infinite_of_injective_forall_mem hinj
    (fun k => (hmem k : g k ∈ (S : Set Entity)))) S.finite_toSet
/-- C3: under the acyclicity precondition on parent links (and their finite
support, which the entity store guarantees), `is_connected_to_core` is total:
for every input some fuel makes the loop return, the answer is `true` exactly
when following parent links from the entity reaches the core in finitely many
hops, and a `false` answer is produced at a step whose parent lookup fails.
The embedding has no panicking operation: every outcome is a returned value. -/
theorem is_connected_total_correct (parents : Entity → Option Entity) (core : Entity)
    (S : Finset Entity) (hS : ∀ e, e ∉ S → parents e = none)
    (hacyc : ∀ e k, 0 < k → parentChain parents k e = some e → False) (e : Entity) :
    ∃ fuel b, is_connected_to_core parents core fuel e = some b ∧
      (b = true ↔ ∃ k, parentChain parents k e = some core) ∧
      (b = false →
        ∃ k x, parentChain parents k e = some x ∧ x ≠ core ∧ parents x = none) := by
  obtain ⟨fuel, b, hrun⟩ := is_connected_terminates parents core S hS hacyc e
  refine ⟨fuel, b, hrun, is_connected_result_iff parents core fuel e b hrun, fun hb => ?_⟩
  exact is_connected_false_reason parents core fuel e (hb ▸ hrun)
/-- Witness for C3 on the parent map with no links at all: the walk from
entity 0 terminates at once (with answer `false`, since the first lookup
fails and 0 is not the core 7). -/
theorem is_connected_total_correct_witness :
    ∃ fuel b, is_connected_to_core (fun _ => none) 7 fuel 0 = some b ∧
      (b = true ↔ ∃ k, parentChain (fun _ => none) k 0 = some 7) ∧
      (b = false →
        ∃ k x, parentChain (fun _ => none) k 0 = some x ∧ x ≠ 7 ∧
          (fun _ => (none : Option Entity)) x = none) :=
  is_connected_total_correct (fun _ => none) 7 ∅ (fun _ _ => rfl)
    (fun e k hk hch => by
      cases k with
      | zero => omega
      | succ k => simp [parentChain] at hch)
    0

/-- The selection fold only answers `none` on an empty candidate list. -/
theorem min_by_dist_eq_none (cursor : ℚ × ℚ) (l : List TipRow) :
    min_by_dist cursor l = none ↔ l = [] := by
  cases l <;> simp [min_by_dist]

/-- The selection fold returns an element of the candidate list. -/
theorem foldl_min_mem (cursor : ℚ × ℚ) :
    ∀ (ts : List TipRow) (t : TipRow),
      ts.foldl
          (fun best x =>
            if dist_squared cursor x.pos < dist_squared cursor best.pos then x else best)
          t = t ∨
        ts.foldl
          (fun best x =>
            if dist_squared cursor x.pos < dist_squared cursor best.pos then x else best)
          t ∈ ts := by
  intro ts
  induction ts with
  | nil => intro t; exact Or.inl rfl
  | cons x ts ih =>
    intro t
    rw [List.foldl_cons]
    rcases ih (if dist_squared cursor x.pos < dist_squared cursor t.pos then x else t) with
      h | h
    · rw [h]
      split
      · exact Or.inr (List.mem_cons_self x ts)
      · exact Or.inl rfl
    · exact Or.inr (List.mem_cons_of_mem x h)

/-- The selection fold answers with a squared distance no larger than that of
the seed or of any list element. -/
theorem foldl_min_le (cursor : ℚ × ℚ) :
    ∀ (ts : List TipRow) (t : TipRow),
      dist_squared cursor
          ((ts.foldl
            (fun best x =>
              if dist_squared cursor x.pos < dist_squared cursor best.pos then x else best)
            t).pos) ≤ dist_squared cursor t.pos ∧
        ∀ x ∈ ts,
          dist_squared cursor
            ((ts.foldl
              (fun best x =>
                if dist_squared cursor x.pos < dist_squared cursor best.pos then x else best)
              t).pos) ≤ dist_squared cursor x.pos := by
  intro ts
  induction ts with
  | nil => intro t; exact ⟨le_rfl, by simp⟩
  | cons x ts ih =>
    intro t
    rw [List.foldl_cons]
    obtain ⟨h1, h2⟩ := ih (if dist_squared cursor x.pos < dist_squared cursor t.pos then x else t)
    have hseed_t : dist_squared cursor
        ((if dist_squared cursor x.pos < dist_squared cursor t.pos then x else t).pos) ≤
        dist_squared cursor t.pos := by
      split
      · rename_i hlt; exact le_of_lt hlt
      · exact le_rfl
    have hseed_x : dist_squared cursor
        ((if dist_squared cursor x.pos < dist_squared cursor t.pos then x else t).pos) ≤
        dist_squared cursor x.pos := by
      split
      · exact le_rfl
      · rename_i hnlt; exact le_of_not_lt hnlt
    refine ⟨le_trans h1 hseed_t, fun y hy => ?_⟩
    rcases List.mem_cons.mp hy with rfl | hy'
    · exact le_trans h1 hseed_x
    · exact h2 y hy'

/-- The winner of `min_by_dist` is a candidate of minimal squared distance. -/
theorem min_by_dist_spec (cursor : ℚ × ℚ) (l : List TipRow) (w : TipRow)
    (h : min_by_dist cursor l = some w) :
    w ∈ l ∧ ∀ x ∈ l, dist_squared cursor w.pos ≤ dist_squared cursor x.pos := by
  cases l with
  | nil => simp [min_by_dist] at h
  | cons t ts =>
    rw [min_by_dist, Option.some_inj] at h
    subst h
    obtain ⟨h1, h2⟩ := foldl_min_le cursor ts t
    refine ⟨?_, fun x hx => ?_⟩
    · rcases foldl_min_mem cursor ts t with h | h
      · rw [h]; exact List.mem_cons_self t ts
      · exact List.mem_cons_of_mem t h
    · rcases List.mem_cons.mp hx with rfl | hx'
      · exact h1
      · exact h2 x hx'

/-- Deselecting preserves each row's entity id and position: every row of the
output corresponds to an input row. -/
theorem deselect_old_mem (active : Option Entity) (tips : List TipRow) :
    ∀ t1 ∈ deselect_old active tips, ∃ t ∈ tips, t1.id = t.id ∧ t1.pos = t.pos := by
  intro t1 h1
  cases active with
  | none => exact ⟨t1, h1, rfl, rfl⟩
  | some old =>
    rw [deselect_old, List.mem_map] at h1
    obtain ⟨t, ht, hmap⟩ := h1
    refine ⟨t, ht, ?_, ?_⟩ <;> rw [← hmap] <;> split <;> rfl

/-- Deselecting preserves each row's entity id and position: every input row
has a corresponding output row. -/
theorem deselect_old_mem' (active : Option Entity) (tips : List TipRow) :
    ∀ t ∈ tips, ∃ t1 ∈ deselect_old active tips, t1.id = t.id ∧ t1.pos = t.pos := by
  intro t ht
  cases active with
  | none => exact ⟨t, ht, rfl, rfl⟩
  | some old =>
    refine ⟨if t.id = old then { t with selected := false } else t,
      List.mem_map_of_mem _ ht, ?_, ?_⟩ <;> split <;> rfl

/-- Row-wise description of a no-winner click: the output rows are the input
rows with the previously active tip's `selected` flag cleared. -/
theorem select_rows_no_winner (active : Option Entity) (tips : List TipRow) :
    deselect_old active tips = tips.map (fun t =>
      { t with selected :=
          if (none : Option Entity) = some t.id then true
          else if active = some t.id then false
          else t.selected }) := by
  cases active with
  | none =>
    simp only [deselect_old]
    have hf : (fun t : TipRow =>
        { t with selected :=
            if (none : Option Entity) = some t.id then true
            else if (none : Option Entity) = some t.id then false
            else t.selected }) = fun t : TipRow => t := by
      funext t
      split_ifs <;> simp_all
    rw [hf, List.map_id']
  | some old =>
    simp only [deselect_old]
    refine congrArg (fun f => List.map f tips) (funext fun t => ?_)
    split_ifs <;> simp_all

/-- Row-wise description of a winning click: the output rows are the input
rows with the old tip's `selected` flag cleared first and the winner's set
afterwards. -/
theorem select_rows_winner (wid : Entity) (active : Option Entity) (tips : List TipRow) :
    (deselect_old active tips).map
        (fun t => if t.id = wid then { t with selected := true } else t) =
      tips.map (fun t =>
        { t with selected :=
            if some wid = some t.id then true
            else if active = some t.id then false
            else t.selected }) := by
  cases active with
  | none =>
    simp only [deselect_old]
    refine congrArg (fun f => List.map f tips) (funext fun t => ?_)
    split_ifs <;> simp_all
  | some old =>
    simp only [deselect_old, List.map_map]
    refine congrArg (fun f => List.map f tips) (funext fun t => ?_)
    simp only [Function.comp]
    split_ifs <;> simp_all

/-- C4: on a primary-click frame with a cursor position available, growth-tip
selection: (boundary-inclusive squared comparison) a tip is a candidate
exactly when its squared distance to the cursor is at most the squared
radius; the output rows are the input rows with the previously active tip's
`selected` flag cleared (if it still resolves) and the winner's set; the
slot comes out `None` exactly when no tip is in range of the cursor, so
clicking empty space deselects everything; and a `Some` slot names a tip in
range of minimal squared distance among all in-range tips. -/
theorem select_growth_tip_click (c : ℚ × ℚ) (active : Option Entity)
    (tips : List TipRow) (slot : Option Entity) (tips' : List TipRow)
    (h : select_growth_tip true (some c) active tips = (slot, tips')) :
    (∀ p r, is_cursor_near_tip c p r = true ↔ dist_squared p c ≤ r * r) ∧
    tips' = tips.map (fun t =>
      { t with selected :=
          if slot = some t.id then true
          else if active = some t.id then false
          else t.selected }) ∧
    (slot = none ↔ ∀ t ∈ tips, is_cursor_near_tip c t.pos TIP_SELECTION_RADIUS = false) ∧
    (∀ e, slot = some e → ∃ t ∈ tips, t.id = e ∧
      is_cursor_near_tip c t.pos TIP_SELECTION_RADIUS = true ∧
      ∀ u ∈ tips, is_cursor_near_tip c u.pos TIP_SELECTION_RADIUS = true →
        dist_squared c t.pos ≤ dist_squared c u.pos) := by
  have hnear : ∀ p r, is_cursor_near_tip c p r = true ↔ dist_squared p c ≤ r * r := by
    intro p r
    simp [is_cursor_near_tip]
  have h' : (match min_by_dist c
        ((deselect_old active tips).filter fun t =>
          is_cursor_near_tip c t.pos TIP_SELECTION_RADIUS) with
      | some w =>
        (some w.id, (deselect_old active tips).map fun t =>
          if t.id = w.id then { t with selected := true } else t)
      | none => (none, deselect_old active tips)) = (slot, tips') := by
    rw [← h]
    rfl
  cases hw : min_by_dist c
      ((deselect_old active tips).filter fun t =>
        is_cursor_near_tip c t.pos TIP_SELECTION_RADIUS) with
  | none =>
    rw [hw] at h'
    obtain ⟨hslot, htips⟩ := Prod.mk.injEq .. ▸ h'
    have hempty : (deselect_old active tips).filter
        (fun t => is_cursor_near_tip c t.pos TIP_SELECTION_RADIUS) = [] :=
      (min_by_dist_eq_none c _).mp hw
    have hall : ∀ t ∈ tips, is_cursor_near_tip c t.pos TIP_SELECTION_RADIUS = false := by
      intro t ht
      obtain ⟨t1, ht1, hid, hpos⟩ := deselect_old_mem' active tips t ht
      have hneq := List.filter_eq_nil_iff.mp hempty t1 ht1
      rw [hpos] at hneq
      simp only [Bool.not_eq_true] at hneq
      exact hneq
    refine ⟨hnear, ?_, ?_, fun e he => absurd he.symm (by rw [← hslot]; simp)⟩
    · rw [← htips, ← hslot]
      exact select_rows_no_winner active tips
    · rw [← hslot]
      exact iff_of_true rfl hall
  | some w =>
    rw [hw] at h'
    obtain ⟨hslot, htips⟩ := Prod.mk.injEq .. ▸ h'
    obtain ⟨hwmem, hwmin⟩ := min_by_dist_spec c _ w hw
    rw [List.mem_filter] at hwmem
    obtain ⟨hw1, hwnear⟩ := hwmem
    obtain ⟨t0, ht0, hid0, hpos0⟩ := deselect_old_mem active tips w hw1
    refine ⟨hnear, ?_, ?_, ?_⟩
    · rw [← htips, ← hslot]
      exact select_rows_winner w.id active tips
    · rw [← hslot]
      refine iff_of_false (by simp) (fun hall => ?_)
      have hcontra := hall t0 ht0
      rw [← hpos0, hwnear] at hcontra
      exact Bool.noConfusion hcontra
    · intro e he
      rw [← hslot, Option.some_inj] at he
      refine ⟨t0, ht0, by rw [← hid0, he], by rw [← hpos0]; exact hwnear, fun u hu hunear => ?_⟩
      obtain ⟨u1, hu1, huid, hupos⟩ := deselect_old_mem' active tips u hu
      have hu1near : is_cursor_near_tip c u1.pos TIP_SELECTION_RADIUS = true := by
        rw [hupos]; exact hunear
      have hu1cand : u1 ∈ (deselect_old active tips).filter
          (fun t => is_cursor_near_tip c t.pos TIP_SELECTION_RADIUS) :=
        List.mem_filter.mpr ⟨hu1, hu1near⟩
      have hle := hwmin u1 hu1cand
      rw [hpos0, hupos] at hle
      exact hle

/-- Witness for C4: cursor at the origin, previously active tip 2; tips 1
(distance 8) and 2 (distance 11) are in range, tip 3 (distance 99) is not;
tip 1 wins, tip 2 is deselected. -/
theorem select_growth_tip_click_witness :
    select_growth_tip true (some (0, 0)) (some 2)
        [⟨1, (8, 0), false⟩, ⟨2, (11, 0), true⟩, ⟨3, (99, 0), false⟩] =
      (some 1, [⟨1, (8, 0), true⟩, ⟨2, (11, 0), false⟩, ⟨3, (99, 0), false⟩]) ∧
    (∃ t ∈ ([⟨1, (8, 0), false⟩, ⟨2, (11, 0), true⟩, ⟨3, (99, 0), false⟩] : List TipRow),
      t.id = 1 ∧ is_cursor_near_tip (0, 0) t.pos TIP_SELECTION_RADIUS = true ∧
      ∀ u ∈ ([⟨1, (8, 0), false⟩, ⟨2, (11, 0), true⟩, ⟨3, (99, 0), false⟩] : List TipRow),
        is_cursor_near_tip (0, 0) u.pos TIP_SELECTION_RADIUS = true →
          dist_squared (0, 0) t.pos ≤ dist_squared (0, 0) u.pos) :=
  ⟨by
    norm_num [select_growth_tip, deselect_old, min_by_dist, is_cursor_near_tip,
      dist_squared, TIP_SELECTION_RADIUS, List.filter],
   (select_growth_tip_click (0, 0) (some 2)
      [⟨1, (8, 0), false⟩, ⟨2, (11, 0), true⟩, ⟨3, (99, 0), false⟩] (some 1)
      [⟨1, (8, 0), true⟩, ⟨2, (11, 0), false⟩, ⟨3, (99, 0), false⟩]
      (by
        norm_num [select_growth_tip, deselect_old, min_by_dist, is_cursor_near_tip,
          dist_squared, TIP_SELECTION_RADIUS, List.filter])).2.2.2 1 rfl⟩

/-- Normalizing the zero vector yields the zero vector (glam's
`normalize_or_zero` contract; no NaN is produced in the model). -/
theorem normalize_or_zero_zero : normalize_or_zero (0, 0) = (0, 0) := by
  simp [normalize_or_zero]

/-- Normalizing a nonzero vector yields a unit vector. -/
theorem normalize_or_zero_unit (v : ℚ × ℚ) (hv : v ≠ (0, 0)) :
    (normalize_or_zero v).1 ^ 2 + (normalize_or_zero v).2 ^ 2 = 1 := by
  rw [normalize_or_zero, if_neg hv]
  have hne : (v.1 : ℝ) ≠ 0 ∨ (v.2 : ℝ) ≠ 0 := by
    by_contra hcon
    push_neg at hcon
    obtain ⟨h1, h2⟩ := hcon
    exact hv (Prod.ext (by exact_mod_cast h1) (by exact_mod_cast h2))
  have hs : 0 < (v.1 : ℝ) ^ 2 + (v.2 : ℝ) ^ 2 := by
    rcases hne with h | h
    · exact add_pos_of_pos_of_nonneg (pow_two_pos_of_ne_zero h) (sq_nonneg _)
    · exact add_pos_of_nonneg_of_pos (sq_nonneg _) (pow_two_pos_of_ne_zero h)
  have hsqrt : Real.sqrt ((v.1 : ℝ) ^ 2 + (v.2 : ℝ) ^ 2) ^ 2 =
      (v.1 : ℝ) ^ 2 + (v.2 : ℝ) ^ 2 := Real.sq_sqrt (le_of_lt hs)
  simp only [div_pow]
  rw [div_add_div_same, hsqrt, div_self (ne_of_gt hs)]

/-- C5: each frame the aiming system sets the active tip's facing direction
to the normalized vector from tip position to cursor (zero when the cursor is
exactly on the tip — no NaN) only when the `ActiveGrowthTip` slot is `Some`,
a cursor position is available, and the tip entity still resolves; otherwise
every tip's stored direction is left unchanged, and the slot is never
cleared, even when it holds a despawned entity's handle. -/
theorem update_selected_tip_direction_spec (cursor : Option (ℚ × ℚ))
    (active : Option Entity) (tips : List AimRow) :
    (update_selected_tip_direction cursor active tips).1 = active ∧
    (cursor = none → (update_selected_tip_direction cursor active tips).2 = tips) ∧
    (active = none → (update_selected_tip_direction cursor active tips).2 = tips) ∧
    (∀ t, active = some t → tips.find? (fun tip => decide (tip.id = t)) = none →
      (update_selected_tip_direction cursor active tips).2 = tips) ∧
    (∀ c t, cursor = some c → active = some t →
      (tips.find? (fun tip => decide (tip.id = t))).isSome = true →
      (update_selected_tip_direction cursor active tips).2 =
        tips.map fun tip =>
          if tip.id = t then
            { tip with dir := normalize_or_zero (c.1 - tip.pos.1, c.2 - tip.pos.2) }
          else tip) ∧
    normalize_or_zero (0, 0) = (0, 0) ∧
    (∀ v : ℚ × ℚ, v ≠ (0, 0) →
      (normalize_or_zero v).1 ^ 2 + (normalize_or_zero v).2 ^ 2 = 1) := by
  refine ⟨?_, ?_, ?_, ?_, ?_, normalize_or_zero_zero, normalize_or_zero_unit⟩
  · cases cursor with
    | none => rfl
    | some c =>
      cases active with
      | none => rfl
      | some t =>
        cases hf : tips.find? (fun tip => decide (tip.id = t)) with
        | none => rw [update_selected_tip_direction, hf]
        | some u => rw [update_selected_tip_direction, hf]
  · rintro rfl
    rfl
  · rintro rfl
    cases cursor <;> rfl
  · rintro t rfl hf
    cases cursor with
    | none => rfl
    | some c => rw [update_selected_tip_direction, hf]
  · rintro c t rfl rfl hf
    cases hfind : tips.find? (fun tip => decide (tip.id = t)) with
    | none => rw [hfind] at hf; exact Bool.noConfusion hf
    | some u => rw [update_selected_tip_direction, hfind]

/-- Witness for C5: with the cursor at `(3, 4)` and tip 1 at the origin as
the active tip, the system keeps the slot and rewrites exactly tip 1's
direction to the normalization of `(3, 4)`, which is a unit vector; the
zero-input case yields the zero direction. -/
theorem update_selected_tip_direction_spec_witness :
    (update_selected_tip_direction (some (3, 4)) (some 1)
      [⟨1, (0, 0), (1, 0)⟩]).1 = some 1 ∧
    (update_selected_tip_direction (some (3, 4)) (some 1)
      [⟨1, (0, 0), (1, 0)⟩]).2 =
      [⟨1, (0, 0), normalize_or_zero ((3, 4).1 - (0, 0).1, (3, 4).2 - (0, 0).2)⟩] ∧
    normalize_or_zero (0, 0) = (0, 0) ∧
    (normalize_or_zero (3, 4)).1 ^ 2 + (normalize_or_zero (3, 4)).2 ^ 2 = 1 := by
  have h := update_selected_tip_direction_spec (some (3, 4)) (some 1)
    [⟨1, (0, 0), (1, 0)⟩]
  refine ⟨h.1, ?_, h.2.2.2.2.2.1, h.2.2.2.2.2.2 (3, 4) (by decide)⟩
  rw [h.2.2.2.2.1 (3, 4) 1 rfl rfl rfl]
  rfl

end Mycelia
